import Mathlib

/-!
Verification of the composer-json parsing/validation library.

The definitions below are a shallow embedding of the Go sources:
- `pkg/composer/dependency` (package-name grammar, dependency-map operations),
- `pkg/composer/validation` (document and version validation),
- `pkg/composer/autoload` (PSR-4 namespace-map operations),
- `pkg/composer` (the `ComposerJSON` aggregate, `CreateNew`, accessors),
- `pkg/composer/parser` (ingestion of raw JSON bytes).

Go regular expressions are compiled by hand into deterministic character
automata (each regex is quoted next to its automaton); Go maps are modelled
as association lists, with `none` for a nil map (reads on nil behave as
empty, writes on nil fault, as in Go); fallible operations return
`Option`/`Except`; the in-place mutators are modelled as functions
returning the updated value.
-/

namespace ComposerSpec

/-! ### Character classes used by the grammars -/

/-- `[a-z0-9]` — lowercase alphanumeric, as in the package-name regex. -/
def isLowerDigit (c : Char) : Bool :=
  ('a' ≤ c && c ≤ 'z') || ('0' ≤ c && c ≤ '9')

/-- `[_.-]` — the separator class of the package-name regex. -/
def isNameSep (c : Char) : Bool :=
  c = '_' || c = '.' || c = '-'

/-- `[0-9]`. -/
def isDigitCh (c : Char) : Bool :=
  '0' ≤ c && c ≤ '9'

/-- `[0-9A-Za-z-]` — the identifier class of prerelease/build suffixes. -/
def isIdentCh (c : Char) : Bool :=
  isDigitCh c || ('a' ≤ c && c ≤ 'z') || ('A' ≤ c && c ≤ 'Z') || c = '-'

/-- Go's `\s` class: `[\t\n\f\r ]` (bytes 9, 10, 12, 13, 32). -/
def isWsCh (c : Char) : Bool :=
  c = ' ' || c = '\t' || c = '\n' || c = '\x0c' || c = '\r'

/-- `[><=!]` — the single-character operator class of the range regex. -/
def isRangeOp (c : Char) : Bool :=
  c = '>' || c = '<' || c = '=' || c = '!'

/-! ### A generic deterministic automaton runner

Each Go regex used by the library is anchored (`^...$`) and denotes a
regular language whose standard automaton is deterministic, so full-string
matching is running the automaton and checking acceptance. -/

/-- Run a deterministic automaton: `step` returns `none` when the machine is
stuck (no match possible), `accept` decides acceptance at end of input. -/
def dfaRun {σ : Type} (step : σ → Char → Option σ) (accept : σ → Bool) :
    σ → List Char → Bool
  | s, [] => accept s
  | s, c :: r =>
    match step s c with
    | none => false
    | some s' => dfaRun step accept s' r

/-- Run the transition function alone over a list of characters. -/
def dfaMany {σ : Type} (step : σ → Char → Option σ) : σ → List Char → Option σ
  | s, [] => some s
  | s, c :: r =>
    match step s c with
    | none => none
    | some s' => dfaMany step s' r

theorem dfaRun_append {σ : Type} (step : σ → Char → Option σ) (accept : σ → Bool)
    (s : σ) (x y : List Char) :
    dfaRun step accept s (x ++ y) =
      (match dfaMany step s x with
       | none => false
       | some s' => dfaRun step accept s' y) := by
  induction x generalizing s with
  | nil => simp [dfaMany]
  | cons c r ih =>
    simp only [List.cons_append, dfaRun, dfaMany]
    cases step s c with
    | none => rfl
    | some s' => exact ih s'

theorem dfaMany_append {σ : Type} (step : σ → Char → Option σ)
    (s : σ) (x y : List Char) :
    dfaMany step s (x ++ y) =
      (match dfaMany step s x with
       | none => none
       | some s' => dfaMany step s' y) := by
  induction x generalizing s with
  | nil => simp [dfaMany]
  | cons c r ih =>
    simp only [List.cons_append, dfaMany]
    cases step s c with
    | none => rfl
    | some s' => exact ih s'

/-- Characters on which a state loops leave `dfaMany` at that state. -/
theorem dfaMany_loop {σ : Type} (step : σ → Char → Option σ) (s : σ)
    (d : List Char) (h : ∀ c ∈ d, step s c = some s) :
    dfaMany step s d = some s := by
  induction d with
  | nil => rfl
  | cons c r ih =>
    simp only [dfaMany, h c (List.mem_cons_self c r)]
    exact ih (fun c' hc' => h c' (List.mem_cons_of_mem c hc'))

/-! ### Name grammar

`dependency.ValidatePackageName` checks each of the two `/`-separated
segments against `^[a-z0-9]([_.-]?[a-z0-9]+)*$`.  The automaton below is
that regex compiled: a segment is a nonempty run of `[a-z0-9]` characters,
runs separated by at most one `[_.-]` character, starting and ending in a
run. -/

inductive NState : Type
  | start   -- before the first character: exactly one `[a-z0-9]` expected
  | run     -- inside an alphanumeric run (an accepting position)
  | sep     -- just after a separator: an alphanumeric character is required
deriving DecidableEq

def nameStep : NState → Char → Option NState
  | .start, c => if isLowerDigit c then some .run else none
  | .run, c =>
    if isLowerDigit c then some .run
    else if isNameSep c then some .sep
    else none
  | .sep, c => if isLowerDigit c then some .run else none

def nameAccept : NState → Bool
  | .run => true
  | _ => false

/-- Full-string match of `^[a-z0-9]([_.-]?[a-z0-9]+)*$`. -/
def nameMatch (l : List Char) : Bool :=
  dfaRun nameStep nameAccept .start l

/-! ### `strings.Split(name, "/")` -/

/-- Go's `strings.Split` on the single-character separator `/`. -/
def splitOnSlash : List Char → List (List Char)
  | [] => [[]]
  | c :: r =>
    if c = '/' then [] :: splitOnSlash r
    else
      match splitOnSlash r with
      | [] => [[c]]
      | h :: t => (c :: h) :: t

theorem splitOnSlash_ne_nil (l : List Char) : splitOnSlash l ≠ [] := by
  cases l with
  | nil => simp [splitOnSlash]
  | cons c r =>
    simp only [splitOnSlash]
    split
    · simp
    · split <;> simp

theorem splitOnSlash_length (l : List Char) :
    (splitOnSlash l).length = l.count '/' + 1 := by
  induction l with
  | nil => simp [splitOnSlash]
  | cons c r ih =>
    simp only [splitOnSlash]
    by_cases hc : c = '/'
    · subst hc
      simp [List.count_cons, ih]
    · rw [if_neg hc]
      have hne := splitOnSlash_ne_nil r
      cases hsp : splitOnSlash r with
      | nil => exact absurd hsp hne
      | cons h t =>
        have hlen := ih
        rw [hsp] at hlen
        have hcnt : (c :: r).count '/' = r.count '/' := by
          simp [List.count_cons, hc]
        simp only [List.length_cons] at hlen ⊢
        rw [hcnt]
        omega

/-! ### Error kinds

The Go code reports errors as `fmt.Errorf` values; the spec's taxonomy of
kinds is one-to-one with the distinct message sites, which is what we
model. -/

inductive VErr : Type
  | emptyName
  | malformedName
  | invalidVendor (seg : String)
  | invalidProject (seg : String)
  | descriptionTooShort
  | invalidStability (s : String)
  | invalidVersionFormat (v : String)
deriving DecidableEq

namespace Dependency

/-- `dependency.GetPackageNameParts`: split into (vendor, project), error
unless the split yields exactly two parts. -/
def GetPackageNameParts (packageName : String) : Except VErr (String × String) :=
  match splitOnSlash packageName.data with
  | [v, p] => .ok (String.mk v, String.mk p)
  | _ => .error .malformedName

/-- `dependency.ValidatePackageName`: empty check, structural split into
exactly two parts, then the per-segment character-class regex. -/
def ValidatePackageName (packageName : String) : Option VErr :=
  if packageName = "" then some .emptyName
  else
    match splitOnSlash packageName.data with
    | [v, p] =>
      if nameMatch v then
        if nameMatch p then none
        else some (.invalidProject (String.mk p))
      else some (.invalidVendor (String.mk v))
    | _ => some .malformedName

end Dependency

/-! ### Version grammar

`validation.ValidateVersion` tries, in order: empty string, exact `*`,
`dev-` prefix, the single-constrained-version regex

  `^(\^|~|>=|<=|>|<|!=|==)?[0-9]+(\.[0-9]+)?(\.[0-9]+)?`
  `(\-[0-9A-Za-z-]+(\.[0-9A-Za-z-]+)*)?(\+[0-9A-Za-z-]+(\.[0-9A-Za-z-]+)*)?$`

and the two-clause range regex

  `^([><=!]?[0-9]+(\.[0-9]+)?(\.[0-9]+)?)(\s+[><=!]?[0-9]+(\.[0-9]+)?(\.[0-9]+)?)$`.

Both regexes are compiled into deterministic automata below (the character
classes of adjacent pieces are disjoint, so the automata are literal
state-by-state transcriptions). -/

/-- States of the single-constrained-version automaton. -/
inductive VState : Type
  | st      -- start: optional operator or first digit
  | opGt    -- consumed a greater-than sign (alone or the head of its two-char form)
  | opLt    -- consumed a less-than sign
  | opBang  -- consumed an exclamation mark (only valid as the head of its two-char form)
  | opEq    -- consumed an equals sign (only valid as the head of the double-equals form)
  | d0      -- operator consumed: first digit required
  | d1      -- inside the first numeric component (accepting)
  | p1      -- consumed the first dot: digit required
  | d2      -- inside the second numeric component (accepting)
  | p2      -- consumed the second dot: digit required
  | d3      -- inside the third numeric component (accepting)
  | r0      -- consumed a dash: a prerelease segment character required
  | r1      -- inside a prerelease segment (accepting)
  | r2      -- consumed a dot inside the prerelease suffix
  | b0      -- consumed a plus: a build segment character required
  | b1      -- inside a build segment (accepting)
  | b2      -- consumed a dot inside the build suffix
deriving DecidableEq

def versionStep : VState → Char → Option VState
  | .st, c =>
    if c = '^' || c = '~' then some .d0
    else if c = '>' then some .opGt
    else if c = '<' then some .opLt
    else if c = '!' then some .opBang
    else if c = '=' then some .opEq
    else if isDigitCh c then some .d1
    else none
  | .opGt, c =>
    if c = '=' then some .d0 else if isDigitCh c then some .d1 else none
  | .opLt, c =>
    if c = '=' then some .d0 else if isDigitCh c then some .d1 else none
  | .opBang, c => if c = '=' then some .d0 else none
  | .opEq, c => if c = '=' then some .d0 else none
  | .d0, c => if isDigitCh c then some .d1 else none
  | .d1, c =>
    if isDigitCh c then some .d1
    else if c = '.' then some .p1
    else if c = '-' then some .r0
    else if c = '+' then some .b0
    else none
  | .p1, c => if isDigitCh c then some .d2 else none
  | .d2, c =>
    if isDigitCh c then some .d2
    else if c = '.' then some .p2
    else if c = '-' then some .r0
    else if c = '+' then some .b0
    else none
  | .p2, c => if isDigitCh c then some .d3 else none
  | .d3, c =>
    if isDigitCh c then some .d3
    else if c = '-' then some .r0
    else if c = '+' then some .b0
    else none
  | .r0, c => if isIdentCh c then some .r1 else none
  | .r1, c =>
    if isIdentCh c then some .r1
    else if c = '.' then some .r2
    else if c = '+' then some .b0
    else none
  | .r2, c => if isIdentCh c then some .r1 else none
  | .b0, c => if isIdentCh c then some .b1 else none
  | .b1, c =>
    if isIdentCh c then some .b1
    else if c = '.' then some .b2
    else none
  | .b2, c => if isIdentCh c then some .b1 else none

def versionAccept : VState → Bool
  | .d1 | .d2 | .d3 | .r1 | .b1 => true
  | _ => false

/-- Full-string match of the single-constrained-version regex. -/
def versionMatch (l : List Char) : Bool :=
  dfaRun versionStep versionAccept .st l

/-- States of the two-clause range automaton: the first token runs through
`a`-states, whitespace through `w`, the second token through `b`-states. -/
inductive RState : Type
  | s | a0 | a1 | a2 | a3 | a4 | a5
  | w
  | b0 | b1 | b2 | b3 | b4 | b5
deriving DecidableEq

def rangeStep : RState → Char → Option RState
  | .s, c =>
    if isRangeOp c then some .a0 else if isDigitCh c then some .a1 else none
  | .a0, c => if isDigitCh c then some .a1 else none
  | .a1, c =>
    if isDigitCh c then some .a1
    else if c = '.' then some .a2
    else if isWsCh c then some .w
    else none
  | .a2, c => if isDigitCh c then some .a3 else none
  | .a3, c =>
    if isDigitCh c then some .a3
    else if c = '.' then some .a4
    else if isWsCh c then some .w
    else none
  | .a4, c => if isDigitCh c then some .a5 else none
  | .a5, c =>
    if isDigitCh c then some .a5
    else if isWsCh c then some .w
    else none
  | .w, c =>
    if isWsCh c then some .w
    else if isRangeOp c then some .b0
    else if isDigitCh c then some .b1
    else none
  | .b0, c => if isDigitCh c then some .b1 else none
  | .b1, c =>
    if isDigitCh c then some .b1 else if c = '.' then some .b2 else none
  | .b2, c => if isDigitCh c then some .b3 else none
  | .b3, c =>
    if isDigitCh c then some .b3 else if c = '.' then some .b4 else none
  | .b4, c => if isDigitCh c then some .b5 else none
  | .b5, c => if isDigitCh c then some .b5 else none

def rangeAccept : RState → Bool
  | .b1 | .b3 | .b5 => true
  | _ => false

/-- Full-string match of the two-clause range regex. -/
def rangeMatch (l : List Char) : Bool :=
  dfaRun rangeStep rangeAccept .s l

/-- `regexp.MustCompile("^dev-").MatchString`: the string starts `dev-`
(at least four characters, the first four being `d`, `e`, `v`, `-`). -/
def hasDevDash : List Char → Bool
  | c1 :: c2 :: c3 :: c4 :: _ =>
    c1 = 'd' && c2 = 'e' && c3 = 'v' && c4 = '-'
  | _ => false

namespace Validation

/-- `validation.ValidateVersion`: the branch cascade of the source. -/
def ValidateVersion (version : String) : Option VErr :=
  if version = "" then none
  else if version = "*" then none
  else if hasDevDash version.data then none
  else if versionMatch version.data then none
  else if rangeMatch version.data then none
  else some (.invalidVersionFormat version)

/-- `validation.ValidateComposerJSON`: name (if provided), description
length in bytes (if provided), stability membership (if provided). -/
def ValidateComposerJSON (name description stability : String) : Option VErr :=
  match (if name ≠ "" then Dependency.ValidatePackageName name else none) with
  | some e => some e
  | none =>
    if description ≠ "" ∧ description.utf8ByteSize < 10 then
      some .descriptionTooShort
    else if stability ≠ "" ∧
        stability ∉ ["dev", "alpha", "beta", "RC", "stable"] then
      some (.invalidStability stability)
    else none

end Validation

/-! ### Go maps

A Go `map[string]string` is `none` when nil and otherwise an association
list whose keys are unique (Go maps cannot hold duplicate keys; the
well-formedness predicate `NodupKeys` captures that invariant where a
proof needs it).  Reading a nil map yields the zero value; writing to a
nil map is a runtime fault. -/

/-- Association-list content of a non-nil Go map. -/
abbrev StrAList := List (String × String)

/-- A possibly-nil `map[string]string`. -/
abbrev StrMap := Option StrAList

/-- Go map read: the first (unique) binding of the key, if any. -/
def mapGet : StrAList → String → Option String
  | [], _ => none
  | (k', v) :: r, k => if k' = k then some v else mapGet r k

/-- Go map write on a non-nil map: replace the binding or append it. -/
def mapInsert : StrAList → String → String → StrAList
  | [], k, v => [(k, v)]
  | (k', v') :: r, k, v =>
    if k' = k then (k, v) :: r else (k', v') :: mapInsert r k v

/-- Go map delete: the key is unique, so dropping every binding of it is
exactly `delete(m, k)`. -/
def mapDelete (m : StrAList) (k : String) : StrAList :=
  m.filter (fun e => e.1 ≠ k)

/-- The Go-map invariant: one binding per key. -/
def NodupKeys (m : StrAList) : Prop :=
  (m.map Prod.fst).Nodup

instance (m : StrAList) : Decidable (NodupKeys m) := by
  unfold NodupKeys; infer_instance

/-- Outcome of a Go operation that can error or hit a runtime fault. -/
inductive MutResult (α : Type) : Type
  | ok (a : α)
  | err (e : VErr)
  | nilMapFault          -- Go: assignment to entry in nil map (a runtime fault)

namespace Dependency

/-- `dependency.DependencyExists`: nil and missing both read as absent. -/
def DependencyExists (require : StrMap) (packageName : String) : Bool :=
  match require with
  | none => false
  | some m => (mapGet m packageName).isSome

/-- `dependency.AddDependency`: validate the name, then write
`require[packageName] = version`.  The source has no nil check before the
write, and in Go that assignment faults on a nil map. -/
def AddDependency (require : StrMap) (packageName version : String) :
    MutResult StrAList :=
  match ValidatePackageName packageName with
  | some e => .err e
  | none =>
    match require with
    | none => .nilMapFault
    | some m => .ok (mapInsert m packageName version)

/-- `dependency.RemoveDependency`: false on nil or missing, otherwise
delete and report true.  The boolean is paired with the updated map. -/
def RemoveDependency (require : StrMap) (packageName : String) :
    StrMap × Bool :=
  match require with
  | none => (none, false)
  | some m =>
    if (mapGet m packageName).isSome then (some (mapDelete m packageName), true)
    else (some m, false)

/-- A `for pkg, version := range l { result[pkg] = version }` loop. -/
def mapInsertAll (acc : StrAList) (l : StrAList) : StrAList :=
  l.foldl (fun acc e => mapInsert acc e.1 e.2) acc

/-- `dependency.MergeDependencies`: fresh map, all `require` entries, then
all `requireDev` entries overwriting collisions; nil reads as empty. -/
def MergeDependencies (require requireDev : StrMap) : StrAList :=
  mapInsertAll (mapInsertAll [] (require.getD [])) (requireDev.getD [])

end Dependency

/-! ### The dynamically typed PSR-4 slot

`autoload.Autoload.PSR4` is an `interface{}`: nil, a
`map[string]interface{}`, or any foreign value.  `GoVal` is that tagged
dynamic value. -/

inductive GoVal : Type
  | vNil
  | vStr (s : String)
  | vBool (b : Bool)
  | vInt (n : Int)
  | vList (l : List GoVal)
  | vMap (m : List (String × GoVal))

/-- Read of a `map[string]interface{}` association list. -/
def mapGetG : List (String × GoVal) → String → Option GoVal
  | [], _ => none
  | (k', v) :: r, k => if k' = k then some v else mapGetG r k

/-- Write of a `map[string]interface{}` association list. -/
def mapInsertG : List (String × GoVal) → String → GoVal → List (String × GoVal)
  | [], k, v => [(k, v)]
  | (k', v') :: r, k, v =>
    if k' = k then (k, v) :: r else (k', v') :: mapInsertG r k v

/-- Delete from a `map[string]interface{}` (keys unique in a Go map). -/
def mapDeleteG (m : List (String × GoVal)) (k : String) :
    List (String × GoVal) :=
  m.filter (fun e => e.1 ≠ k)

/-- Does the type assertion `.(map[string]interface{})` succeed? -/
def GoVal.isMapShape : GoVal → Bool
  | .vMap _ => true
  | _ => false

/-- `autoload.Autoload` (PSR-0 is also an `interface{}` slot). -/
structure Autoload : Type where
  psr0 : GoVal := .vNil
  psr4 : GoVal := .vNil
  classmap : List String := []
  files : List String := []
  excludeFrom : List String := []

/-- Keep exactly the string-valued entries of a dynamic map (the
`for ns, path := range psr4Map { if pathStr, ok := path.(string); ok ... }`
loop of `GetPSR4Map`). -/
def Autoload.stringEntries : List (String × GoVal) → StrAList
  | [] => []
  | (k, .vStr s) :: r => (k, s) :: Autoload.stringEntries r
  | (_, _) :: r => Autoload.stringEntries r

/-- `autoload.GetPSR4Map`: type-assert the slot; on success collect the
string-valued entries (silently dropping the rest), on failure return
`(nil, false)`. -/
def Autoload.GetPSR4Map (a : Autoload) : StrMap × Bool :=
  match a.psr4 with
  | .vMap m => (some (stringEntries m), true)
  | _ => (none, false)

/-- `autoload.SetPSR4`: coerce a non-map slot to a fresh empty map, then
insert the binding. -/
def Autoload.SetPSR4 (a : Autoload) (namespc path : String) : Autoload :=
  match a.psr4 with
  | .vMap m => { a with psr4 := .vMap (mapInsertG m namespc (.vStr path)) }
  | _ => { a with psr4 := .vMap [(namespc, .vStr path)] }

/-- `autoload.RemovePSR4`: false when the slot is not a map or lacks the
key; otherwise delete and report true. -/
def Autoload.RemovePSR4 (a : Autoload) (namespc : String) : Autoload × Bool :=
  match a.psr4 with
  | .vMap m =>
    if (mapGetG m namespc).isSome then
      ({ a with psr4 := .vMap (mapDeleteG m namespc) }, true)
    else (a, false)
  | _ => (a, false)

/-! ### The document aggregate -/

/-- The fields of `composer.ComposerJSON` that the verified operations
touch (the remaining fields are opaque passthrough). -/
structure ComposerJSON : Type where
  name : String := ""
  description : String := ""
  type : String := ""
  license : GoVal := .vNil       -- `interface{}`: string or list of strings
  require : StrMap := none
  requireDev : StrMap := none
  autoload : Autoload := {}

namespace ComposerJSON

/-- `(*ComposerJSON).DependencyExists`. -/
def DependencyExists (c : ComposerJSON) (packageName : String) : Bool :=
  Dependency.DependencyExists c.require packageName

/-- `(*ComposerJSON).DevDependencyExists`. -/
def DevDependencyExists (c : ComposerJSON) (packageName : String) : Bool :=
  Dependency.DependencyExists c.requireDev packageName

/-- `(*ComposerJSON).AddDependency`: a direct delegation to
`dependency.AddDependency` on the `require` field — no initialization of a
nil map happens on the way. -/
def AddDependency (c : ComposerJSON) (packageName version : String) :
    MutResult ComposerJSON :=
  match Dependency.AddDependency c.require packageName version with
  | .ok m => .ok { c with require := some m }
  | .err e => .err e
  | .nilMapFault => .nilMapFault

/-- `(*ComposerJSON).AddDevDependency`: same delegation on `require-dev`. -/
def AddDevDependency (c : ComposerJSON) (packageName version : String) :
    MutResult ComposerJSON :=
  match Dependency.AddDependency c.requireDev packageName version with
  | .ok m => .ok { c with requireDev := some m }
  | .err e => .err e
  | .nilMapFault => .nilMapFault

/-- `(*ComposerJSON).GetAllDependencies`. -/
def GetAllDependencies (c : ComposerJSON) : StrAList :=
  Dependency.MergeDependencies c.require c.requireDev

/-- `(*ComposerJSON).GetPSR4Map`. -/
def GetPSR4Map (c : ComposerJSON) : StrMap × Bool :=
  Autoload.GetPSR4Map c.autoload

end ComposerJSON

/-- `composer.ucfirst`: uppercase the first rune when it is `a`–`z`. -/
def ucfirst (s : String) : String :=
  match s.data with
  | [] => ""
  | c :: r =>
    String.mk ((if 'a' ≤ c ∧ c ≤ 'z' then
      Char.ofNat (c.toNat - 'a'.toNat + 'A'.toNat) else c) :: r)

/-- `composer.toNamespace`: capitalized segments joined by a backslash. -/
def toNamespace (vendor project : String) : String :=
  ucfirst vendor ++ "\\" ++ ucfirst project

/-- `composer.CreateNew`: validate the name when provided, validate the
document fields, derive the default PSR-4 entry, and build the document
with its defaults (`type=library`, `license=MIT`, empty non-nil dependency
maps). -/
def CreateNew (name description : String) : Except VErr ComposerJSON :=
  match (if name ≠ "" then Dependency.ValidatePackageName name else none) with
  | some e => .error e
  | none =>
    match Validation.ValidateComposerJSON name description "" with
    | some e => .error e
    | none =>
      let psr4Map : List (String × GoVal) :=
        if name ≠ "" then
          let vp := match Dependency.GetPackageNameParts name with
            | .ok vp => vp
            | .error _ => ("", "")
          [(toNamespace vp.1 vp.2 ++ "\\", .vStr "src/")]
        else []
      .ok { name := name
            description := description
            type := "library"
            license := .vStr "MIT"
            require := some []
            requireDev := some []
            autoload := { psr4 := .vMap psr4Map } }

/-! ### Ingestion (`parser.Parse`)

`parser.Parse` reads all bytes, checks `json.Valid`, then unmarshals into
a `map[string]interface{}`.  The model below embeds the relevant part of
`encoding/json` (a collaborator per the spec): `jsonParse` is the RFC 8259
value grammar, and unmarshalling a JSON value into a Go map succeeds for
an object, leaves the map nil without error for `null`, and fails with an
unmarshalling type error for any other top-level value. -/

inductive JVal : Type
  | jnull
  | jbool (b : Bool)
  | jnum (lit : String)        -- the numeric literal, kept verbatim
  | jstr (s : String)
  | jarr (items : List JVal)
  | jobj (members : List (String × JVal))

/-- JSON whitespace. -/
def isJWs (c : Char) : Bool :=
  c = ' ' || c = '\t' || c = '\n' || c = '\r'

def dropJWs (l : List Char) : List Char :=
  l.dropWhile isJWs

def isHexCh (c : Char) : Bool :=
  isDigitCh c || ('a' ≤ c && c ≤ 'f') || ('A' ≤ c && c ≤ 'F')

/-- Body of a JSON string after the opening quote: returns the content and
the input after the closing quote. -/
def jsonStrBody : List Char → Option (List Char × List Char)
  | [] => none
  | '"' :: r => some ([], r)
  | '\\' :: e :: r =>
    if e = '"' || e = '\\' || e = '/' || e = 'b' || e = 'f' || e = 'n' ||
        e = 'r' || e = 't' then
      match jsonStrBody r with
      | some (cs, rest) => some (e :: cs, rest)
      | none => none
    else if e = 'u' then
      match r with
      | h1 :: h2 :: h3 :: h4 :: r' =>
        if isHexCh h1 && isHexCh h2 && isHexCh h3 && isHexCh h4 then
          match jsonStrBody r' with
          | some (cs, rest) => some (h1 :: h2 :: h3 :: h4 :: cs, rest)
          | none => none
        else none
      | _ => none
    else none
  | c :: r =>
    if c.toNat < 32 then none
    else
      match jsonStrBody r with
      | some (cs, rest) => some (c :: cs, rest)
      | none => none

/-- `int frac? exp?` after an optional minus sign: digits with the JSON
leading-zero rule, optional fraction, optional exponent. -/
def jsonNumTail (l : List Char) : Option (List Char × List Char) :=
  let intPart : Option (List Char × List Char) :=
    match l with
    | '0' :: r => some (['0'], r)
    | c :: r =>
      if isDigitCh c && c ≠ '0' then
        some (c :: r.takeWhile isDigitCh, r.dropWhile isDigitCh)
      else none
    | [] => none
  match intPart with
  | none => none
  | some (ds, r1) =>
    let fracPart : Option (List Char × List Char) :=
      match r1 with
      | '.' :: r2 =>
        let fs := r2.takeWhile isDigitCh
        if fs.isEmpty then none else some ('.' :: fs, r2.dropWhile isDigitCh)
      | _ => some ([], r1)
    match fracPart with
    | none => none
    | some (fs, r2) =>
      match r2 with
      | e :: r3 =>
        if e = 'e' || e = 'E' then
          let (sgn, r4) :=
            match r3 with
            | s :: r4' => if s = '+' || s = '-' then ([s], r4') else ([], r3)
            | [] => ([], r3)
          let es := r4.takeWhile isDigitCh
          if es.isEmpty then none
          else some (ds ++ fs ++ e :: sgn ++ es, r4.dropWhile isDigitCh)
        else some (ds ++ fs, r2)
      | [] => some (ds ++ fs, r2)

mutual

/-- One JSON value, with fuel; returns the value and the unconsumed rest. -/
def jsonVal : Nat → List Char → Option (JVal × List Char)
  | 0, _ => none
  | fuel + 1, l =>
    match dropJWs l with
    | 'n' :: 'u' :: 'l' :: 'l' :: r => some (.jnull, r)
    | 't' :: 'r' :: 'u' :: 'e' :: r => some (.jbool true, r)
    | 'f' :: 'a' :: 'l' :: 's' :: 'e' :: r => some (.jbool false, r)
    | '"' :: r =>
      match jsonStrBody r with
      | some (cs, rest) => some (.jstr (String.mk cs), rest)
      | none => none
    | '[' :: r =>
      (match dropJWs r with
       | ']' :: r' => some (.jarr [], r')
       | _ =>
         match jsonArrItems fuel r with
         | some (items, rest) => some (.jarr items, rest)
         | none => none)
    | '{' :: r =>
      (match dropJWs r with
       | '}' :: r' => some (.jobj [], r')
       | _ =>
         match jsonObjItems fuel r with
         | some (members, rest) => some (.jobj members, rest)
         | none => none)
    | '-' :: r =>
      (match jsonNumTail r with
       | some (ds, rest) => some (.jnum (String.mk ('-' :: ds)), rest)
       | none => none)
    | l' =>
      match jsonNumTail l' with
      | some (ds, rest) => some (.jnum (String.mk ds), rest)
      | none => none

/-- `value (, value)*` then `]`. -/
def jsonArrItems : Nat → List Char → Option (List JVal × List Char)
  | 0, _ => none
  | fuel + 1, l =>
    match jsonVal fuel l with
    | none => none
    | some (v, r) =>
      match dropJWs r with
      | ',' :: r' =>
        (match jsonArrItems fuel r' with
         | some (vs, rest) => some (v :: vs, rest)
         | none => none)
      | ']' :: r' => some ([v], r')
      | _ => none

/-- `string : value (, string : value)*` then `}`. -/
def jsonObjItems : Nat → List Char → Option (List (String × JVal) × List Char)
  | 0, _ => none
  | fuel + 1, l =>
    match dropJWs l with
    | '"' :: r =>
      (match jsonStrBody r with
       | none => none
       | some (k, r1) =>
         match dropJWs r1 with
         | ':' :: r2 =>
           (match jsonVal fuel r2 with
            | none => none
            | some (v, r3) =>
              match dropJWs r3 with
              | ',' :: r4 =>
                (match jsonObjItems fuel r4 with
                 | some (ms, rest) => some ((String.mk k, v) :: ms, rest)
                 | none => none)
              | '}' :: r4 => some ([(String.mk k, v)], r4)
              | _ => none)
         | _ => none)
    | _ => none

end

/-- A full JSON document: one value with only whitespace around it.  This
is both `json.Valid` (success of the parse) and the value `json.Unmarshal`
would produce. -/
def jsonParse (s : String) : Option JVal :=
  match jsonVal (s.data.length + 1) s.data with
  | some (v, rest) => if dropJWs rest = [] then some v else none
  | none => none

/-- Outcome of `parser.Parse` on a byte payload. -/
inductive ParseOutcome : Type
  | errInvalidJSON                      -- `ErrInvalidJSON` (malformed input)
  | errUnmarshal                        -- wrapped `ErrUnmarshallingJSON`
  | okNoData                            -- nil map, nil error (the null quirk)
  | okData (m : List (String × JVal))   -- parsed object

namespace Parser

/-- `parser.Parse`: `json.Valid` gate, then unmarshal into
`map[string]interface{}` — `null` leaves the map nil with no error, an
object fills it, any other top-level value is an unmarshalling type
error. -/
def Parse (s : String) : ParseOutcome :=
  match jsonParse s with
  | none => .errInvalidJSON
  | some .jnull => .okNoData
  | some (.jobj members) => .okData members
  | some _ => .errUnmarshal

end Parser

/-! ## Lemmas about the map model -/

theorem mapGet_insert_self (m : StrAList) (k v : String) :
    mapGet (mapInsert m k v) k = some v := by
  induction m with
  | nil => simp [mapInsert, mapGet]
  | cons e r ih =>
    obtain ⟨k', v'⟩ := e
    by_cases h : k' = k
    · subst h; simp [mapInsert, mapGet]
    · simp [mapInsert, mapGet, h, ih]

theorem mapGet_insert_ne (m : StrAList) (k v k' : String) (h : k ≠ k') :
    mapGet (mapInsert m k v) k' = mapGet m k' := by
  induction m with
  | nil => simp [mapInsert, mapGet, h]
  | cons e r ih =>
    obtain ⟨k'', v''⟩ := e
    by_cases h2 : k'' = k
    · subst h2; simp [mapInsert, mapGet, h]
    · simp [mapInsert, mapGet, h2, ih]

theorem mapGet_insertAll_notMem (acc : StrAList) (l : StrAList) (k : String)
    (h : ∀ e ∈ l, e.1 ≠ k) :
    mapGet (Dependency.mapInsertAll acc l) k = mapGet acc k := by
  induction l generalizing acc with
  | nil => rfl
  | cons e r ih =>
    have hek : e.1 ≠ k := h e (List.mem_cons_self e r)
    have := ih (mapInsert acc e.1 e.2) (fun e' he' => h e' (List.mem_cons_of_mem e he'))
    simp only [Dependency.mapInsertAll, List.foldl_cons] at this ⊢
    rw [this, mapGet_insert_ne acc e.1 e.2 k hek]

/-- The fundamental loop lemma: with unique keys in `l`, looking up `k`
after inserting all of `l` finds `l`'s binding when there is one and falls
back to the accumulator otherwise. -/
theorem mapGet_insertAll (acc : StrAList) (l : StrAList) (k : String)
    (h : NodupKeys l) :
    mapGet (Dependency.mapInsertAll acc l) k =
      (match mapGet l k with
       | some v => some v
       | none => mapGet acc k) := by
  induction l generalizing acc with
  | nil => simp [Dependency.mapInsertAll, mapGet]
  | cons e r ih =>
    obtain ⟨k0, v0⟩ := e
    have hnd : NodupKeys r := by
      simpa [NodupKeys] using (List.nodup_cons.mp h).2
    have hk0 : k0 ∉ r.map Prod.fst := (List.nodup_cons.mp h).1
    simp only [Dependency.mapInsertAll, List.foldl_cons]
    by_cases hke : k0 = k
    · subst hke
      have hnot : ∀ e' ∈ r, e'.1 ≠ k0 := by
        intro e' he' hEq
        exact hk0 (hEq ▸ List.mem_map_of_mem Prod.fst he')
      have := mapGet_insertAll_notMem (mapInsert acc k0 v0) r k0 hnot
      simp only [Dependency.mapInsertAll] at this
      rw [this, mapGet_insert_self]
      simp [mapGet]
    · have := ih (mapInsert acc k0 v0) hnd
      simp only [Dependency.mapInsertAll] at this
      rw [this]
      simp only [mapGet, hke, if_false]
      cases mapGet r k with
      | none => simp [mapGet_insert_ne acc k0 v0 k hke]
      | some v => simp

/-! ## Claim theorems -/

/-- Claim C5: `ValidatePackageName` succeeds iff the name has exactly one
`/` and both split segments match `^[a-z0-9]([_.-]?[a-z0-9]+)*$`; the
failures carry the matching kind: `EmptyName` for `""`, `MalformedName`
when the structural split does not yield two parts, and
`InvalidVendorSegment` / `InvalidProjectSegment` when the respective
segment fails the character-class regex. -/
theorem validatePackageName_spec (name : String) :
    (Dependency.ValidatePackageName name = none ↔
      (name.data.count '/' = 1 ∧
        ∀ seg ∈ splitOnSlash name.data, nameMatch seg = true)) ∧
    (name = "" → Dependency.ValidatePackageName name = some .emptyName) ∧
    (name ≠ "" → name.data.count '/' ≠ 1 →
      Dependency.ValidatePackageName name = some .malformedName) ∧
    (∀ v p, splitOnSlash name.data = [v, p] → nameMatch v = false →
      Dependency.ValidatePackageName name = some (.invalidVendor (String.mk v))) ∧
    (∀ v p, splitOnSlash name.data = [v, p] → nameMatch v = true →
      nameMatch p = false →
      Dependency.ValidatePackageName name = some (.invalidProject (String.mk p))) := by
  have hlen := splitOnSlash_length name.data
  by_cases hn : name = ""
  · subst hn
    refine ⟨?_, fun _ => rfl, fun h _ => absurd rfl h, ?_, ?_⟩
    · constructor
      · intro h; exact absurd h (by simp [Dependency.ValidatePackageName])
      · rintro ⟨hc, -⟩
        have : (String.data "") = [] := rfl
        rw [this] at hc
        simp at hc
    · intro v p hvp
      have : (String.data "") = [] := rfl
      rw [this] at hvp
      simp [splitOnSlash] at hvp
    · intro v p hvp
      have : (String.data "") = [] := rfl
      rw [this] at hvp
      simp [splitOnSlash] at hvp
  · have hcount : name.data.count '/' = 1 ↔ (splitOnSlash name.data).length = 2 := by
      omega
    rcases hsp : splitOnSlash name.data with - | ⟨v, - | ⟨p, - | ⟨x, t⟩⟩⟩
    · exact absurd hsp (splitOnSlash_ne_nil name.data)
    · -- one part: no slash at all
      have h1 : name.data.count '/' ≠ 1 := by rw [hsp] at hlen; simp at hlen; omega
      refine ⟨?_, fun h => absurd h hn, fun _ _ => ?_, ?_, ?_⟩
      · constructor
        · intro h
          exact absurd h (by simp [Dependency.ValidatePackageName, hn, hsp])
        · rintro ⟨hc, -⟩; exact absurd hc h1
      · simp [Dependency.ValidatePackageName, hn, hsp]
      · intro v' p' hvp; simp at hvp
      · intro v' p' hvp; simp at hvp
    · -- exactly two parts
      have h1 : name.data.count '/' = 1 := by rw [hsp] at hlen; simp at hlen; omega
      have hval : Dependency.ValidatePackageName name =
          (if nameMatch v then
            if nameMatch p then none
            else some (.invalidProject (String.mk p))
          else some (.invalidVendor (String.mk v))) := by
        simp [Dependency.ValidatePackageName, hn, hsp]
      refine ⟨?_, fun h => absurd h hn, fun _ hc => absurd h1 hc, ?_, ?_⟩
      · rw [hval]
        by_cases hv : nameMatch v <;> by_cases hp : nameMatch p <;>
          simp [hv, hp, h1]
      · intro v' p' hvp hv
        obtain ⟨rfl, rfl⟩ : v = v' ∧ p = p' := by
          simpa using hvp
        rw [hval, if_neg (by simp [hv])]
      · intro v' p' hvp hv hp
        obtain ⟨rfl, rfl⟩ : v = v' ∧ p = p' := by
          simpa using hvp
        rw [hval, if_pos hv, if_neg (by simp [hp])]
    · -- three or more parts
      have h1 : name.data.count '/' ≠ 1 := by rw [hsp] at hlen; simp at hlen; omega
      refine ⟨?_, fun h => absurd h hn, fun _ _ => ?_, ?_, ?_⟩
      · constructor
        · intro h
          exact absurd h (by simp [Dependency.ValidatePackageName, hn, hsp])
        · rintro ⟨hc, -⟩; exact absurd hc h1
      · simp [Dependency.ValidatePackageName, hn, hsp]
      · intro v' p' hvp; simp at hvp
      · intro v' p' hvp; simp at hvp

/-- Witness for C5 at concrete names: a valid name is accepted, an
uppercase vendor segment is rejected with the vendor kind. -/
theorem validatePackageName_spec_witness :
    Dependency.ValidatePackageName "symfony/console" = none ∧
    Dependency.ValidatePackageName "Bad/name" = some (.invalidVendor "Bad") := by
  constructor
  · exact (validatePackageName_spec "symfony/console").1.mpr (by decide)
  · exact (validatePackageName_spec "Bad/name").2.2.2.1
      "Bad".data "name".data (by decide) (by decide)

/-- Claim C6: `MergeDependencies` is an override merge: for maps with the
Go-map key-uniqueness invariant, the merged map binds `k` to `B[k]` when
`k` is in `B` and to `A[k]` otherwise; merging two nil maps yields the
empty map; the inputs are never mutated (the model is pure, and the result
is a freshly built list). -/
theorem mergeDependencies_spec (A B : StrMap)
    (hA : NodupKeys (A.getD [])) (hB : NodupKeys (B.getD [])) (k : String) :
    (∀ v, mapGet (B.getD []) k = some v →
      mapGet (Dependency.MergeDependencies A B) k = some v) ∧
    (mapGet (B.getD []) k = none →
      mapGet (Dependency.MergeDependencies A B) k = mapGet (A.getD []) k) ∧
    Dependency.MergeDependencies none none = [] := by
  have hmain : mapGet (Dependency.MergeDependencies A B) k =
      (match mapGet (B.getD []) k with
       | some v => some v
       | none =>
         match mapGet (A.getD []) k with
         | some v => some v
         | none => mapGet ([] : StrAList) k) := by
    unfold Dependency.MergeDependencies
    rw [mapGet_insertAll _ _ _ hB]
    cases mapGet (B.getD []) k with
    | some v => rfl
    | none =>
      simp only
      rw [mapGet_insertAll _ _ _ hA]
  refine ⟨?_, ?_, rfl⟩
  · intro v hv; rw [hmain, hv]
  · intro hv
    rw [hmain, hv]
    cases mapGet (A.getD []) k with
    | some v => rfl
    | none => rfl

/-- Witness for C6 at concrete maps: the overlay wins on the shared key,
the base survives elsewhere, and `merge(nil, nil)` is empty. -/
theorem mergeDependencies_spec_witness :
    mapGet (Dependency.MergeDependencies
      (some [("php", ">=7.4"), ("symfony/console", "^5.4")])
      (some [("php", ">=8.0")])) "php" = some ">=8.0" ∧
    mapGet (Dependency.MergeDependencies
      (some [("php", ">=7.4"), ("symfony/console", "^5.4")])
      (some [("php", ">=8.0")])) "symfony/console" = some "^5.4" := by
  constructor
  · exact (mergeDependencies_spec
      (some [("php", ">=7.4"), ("symfony/console", "^5.4")])
      (some [("php", ">=8.0")]) (by decide) (by decide) "php").1 ">=8.0" (by decide)
  · have h := (mergeDependencies_spec
      (some [("php", ">=7.4"), ("symfony/console", "^5.4")])
      (some [("php", ">=8.0")]) (by decide) (by decide) "symfony/console").2.1
      (by decide)
    rw [h]; decide

/-- A parsed document without `require` / `require-dev` sections: both
maps are nil. -/
def docNilMaps : ComposerJSON :=
  { name := "vendor/project", require := none, requireDev := none }

/-- Claim C1 counterexample: on a document whose maps are nil the accessor
does not initialize them — the underlying `require[packageName] = version`
assignment is a nil-map write, which faults at runtime in Go instead of
returning success. -/
theorem addDependency_nilMap_cex :
    ComposerJSON.AddDependency docNilMaps "symfony/console" "^5.4" = .nilMapFault ∧
    ComposerJSON.AddDevDependency docNilMaps "phpunit/phpunit" "^9.0" = .nilMapFault :=
  ⟨rfl, rfl⟩

/-- Claim C1 amended: The dependency accessors perform no lazy
initialization: with a valid package name, a write against a non-nil map
inserts the entry and returns success, while a write against a nil map
faults (Go: assignment to entry in nil map). -/
theorem addDependency_spec (c : ComposerJSON) (pkg ver : String)
    (h : Dependency.ValidatePackageName pkg = none) :
    (c.require = none → c.AddDependency pkg ver = .nilMapFault) ∧
    (∀ m, c.require = some m →
      c.AddDependency pkg ver = .ok { c with require := some (mapInsert m pkg ver) }) ∧
    (c.requireDev = none → c.AddDevDependency pkg ver = .nilMapFault) ∧
    (∀ m, c.requireDev = some m →
      c.AddDevDependency pkg ver =
        .ok { c with requireDev := some (mapInsert m pkg ver) }) := by
  refine ⟨?_, ?_, ?_, ?_⟩
  · intro hr
    simp [ComposerJSON.AddDependency, Dependency.AddDependency, h, hr]
  · intro m hr
    simp [ComposerJSON.AddDependency, Dependency.AddDependency, h, hr]
  · intro hr
    simp [ComposerJSON.AddDevDependency, Dependency.AddDependency, h, hr]
  · intro m hr
    simp [ComposerJSON.AddDevDependency, Dependency.AddDependency, h, hr]

/-- Witness for the amended C1: inserting into empty non-nil maps
succeeds, and the nil-map branch of the same theorem fires on
`docNilMaps`. -/
theorem addDependency_spec_witness :
    ComposerJSON.AddDependency
        { require := some [], requireDev := some [] } "symfony/console" "^5.4" =
      .ok { require := some [("symfony/console", "^5.4")], requireDev := some [] } ∧
    ComposerJSON.AddDevDependency docNilMaps "phpunit/phpunit" "^9.0" =
      .nilMapFault := by
  constructor
  · exact (addDependency_spec { require := some [], requireDev := some [] }
      "symfony/console" "^5.4" (by decide)).2.1 [] rfl
  · exact (addDependency_spec docNilMaps "phpunit/phpunit" "^9.0"
      (by decide)).2.2.1 rfl

/-- Claim C3 counterexample: With an empty name, `CreateNew` still runs
document-level validation: a non-empty description shorter than 10 bytes
is rejected, so creation does not succeed for every description. -/
theorem createNew_emptyName_cex :
    CreateNew "" "short" = .error .descriptionTooShort := rfl

/-- Claim C3 amended: With an empty name, `CreateNew` skips name-grammar
validation entirely (the only error it can ever return is the description
one — no name-grammar error occurs for any description), but
document-level validation still runs: it fails with `DescriptionTooShort`
exactly when the description is non-empty and under 10 bytes, and
otherwise succeeds with the default document. -/
theorem createNew_emptyName_spec (d : String) :
    (¬(d ≠ "" ∧ d.utf8ByteSize < 10) →
      CreateNew "" d =
        .ok { name := ""
              description := d
              type := "library"
              license := .vStr "MIT"
              require := some []
              requireDev := some []
              autoload := { psr4 := .vMap [] } }) ∧
    ((d ≠ "" ∧ d.utf8ByteSize < 10) →
      CreateNew "" d = .error .descriptionTooShort) ∧
    (∀ e, CreateNew "" d = .error e → e = .descriptionTooShort) := by
  refine ⟨?_, ?_, ?_⟩
  · intro hd
    simp [CreateNew, Validation.ValidateComposerJSON, hd]
  · intro hd
    simp [CreateNew, Validation.ValidateComposerJSON, hd]
  · intro e he
    by_cases hd : d ≠ "" ∧ d.utf8ByteSize < 10
    · have h2 : CreateNew "" d = .error .descriptionTooShort := by
        simp [CreateNew, Validation.ValidateComposerJSON, hd]
      rw [h2] at he
      injection he with h
      exact h.symm
    · have h2 : CreateNew "" d =
          .ok { name := ""
                description := d
                type := "library"
                license := .vStr "MIT"
                require := some []
                requireDev := some []
                autoload := { psr4 := .vMap [] } } := by
        simp [CreateNew, Validation.ValidateComposerJSON, hd]
      rw [h2] at he
      cases he

/-- Witness for the amended C3: a long description passes, and the short
description of the counterexample fails, both through the theorem. -/
theorem createNew_emptyName_spec_witness :
    CreateNew "" "A sufficiently long description" =
      .ok { name := ""
            description := "A sufficiently long description"
            type := "library"
            license := .vStr "MIT"
            require := some []
            requireDev := some []
            autoload := { psr4 := .vMap [] } } ∧
    CreateNew "" "tiny" = .error .descriptionTooShort := by
  constructor
  · exact (createNew_emptyName_spec "A sufficiently long description").1 (by decide)
  · exact (createNew_emptyName_spec "tiny").2.1 (by decide)

/-- Claim C4: Ingestion of the three scenario payloads: a literal JSON
`null` yields no data and no error; a well-formed non-object top level
(`[1,2,3]`) yields the unmarshalling (structural-mismatch) error; bytes
that are not valid JSON (`{`) yield the invalid-JSON (malformed-input)
error. -/
theorem parse_ingestion_quirks :
    Parser.Parse "null" = .okNoData ∧
    Parser.Parse "[1,2,3]" = .errUnmarshal ∧
    Parser.Parse "\x7b" = .errInvalidJSON :=
  ⟨rfl, rfl, rfl⟩

/-- Claim C9: `CreateNew "vendor/project" "A sufficiently long description"`
succeeds with `type = "library"`, `license = "MIT"`, and the derived PSR-4
entry `"Vendor\Project\" -> "src/"` (first ASCII lowercase letter of each
segment capitalized, segments joined by a backslash, trailing backslash
appended); reading the PSR-4 map back yields exactly that entry. -/
theorem createNew_defaults :
    CreateNew "vendor/project" "A sufficiently long description" =
      .ok { name := "vendor/project"
            description := "A sufficiently long description"
            type := "library"
            license := .vStr "MIT"
            require := some []
            requireDev := some []
            autoload := { psr4 := .vMap [("Vendor\\Project\\", .vStr "src/")] } } ∧
    Autoload.GetPSR4Map { psr4 := .vMap [("Vendor\\Project\\", .vStr "src/")] } =
      (some [("Vendor\\Project\\", "src/")], true) :=
  ⟨rfl, rfl⟩

/-! ## Lemmas about the PSR-4 slot -/

/-- The Go-map key-uniqueness invariant for the dynamic map. -/
def NodupKeysG (m : List (String × GoVal)) : Prop :=
  (m.map Prod.fst).Nodup

instance (m : List (String × GoVal)) : Decidable (NodupKeysG m) := by
  unfold NodupKeysG; infer_instance

/-- Lookup in a possibly-nil `map[string]string` result (nil reads as
empty). -/
def psr4Lookup (r : StrMap) (k : String) : Option String :=
  match r with
  | none => none
  | some l => mapGet l k

theorem stringEntries_get_none (m : List (String × GoVal)) (k : String)
    (h : mapGetG m k = none) :
    mapGet (Autoload.stringEntries m) k = none := by
  induction m with
  | nil => rfl
  | cons e r ih =>
    obtain ⟨k0, v0⟩ := e
    by_cases hk : k0 = k
    · subst hk; simp [mapGetG] at h
    · have hr : mapGetG r k = none := by simpa [mapGetG, hk] using h
      cases v0 <;> simp [Autoload.stringEntries, mapGet, hk, ih hr]

theorem mapGetG_eq_none_of_notMem (m : List (String × GoVal)) (k : String)
    (h : k ∉ m.map Prod.fst) : mapGetG m k = none := by
  induction m with
  | nil => rfl
  | cons e r ih =>
    obtain ⟨k0, v0⟩ := e
    simp only [List.map_cons, List.mem_cons] at h
    push_neg at h
    have hk : ¬k0 = k := fun hEq => h.1 hEq.symm
    simp [mapGetG, hk, ih h.2]

theorem stringEntries_insert_get (m : List (String × GoVal)) (ns p : String) :
    mapGet (Autoload.stringEntries (mapInsertG m ns (.vStr p))) ns = some p := by
  induction m with
  | nil => simp [mapInsertG, Autoload.stringEntries, mapGet]
  | cons e r ih =>
    obtain ⟨k0, v0⟩ := e
    by_cases hk : k0 = ns
    · subst hk; simp [mapInsertG, Autoload.stringEntries, mapGet]
    · cases v0 <;> simp [mapInsertG, hk, Autoload.stringEntries, mapGet, ih]

theorem stringEntries_delete_get (m : List (String × GoVal)) (ns : String) :
    mapGet (Autoload.stringEntries (mapDeleteG m ns)) ns = none := by
  induction m with
  | nil => rfl
  | cons e r ih =>
    obtain ⟨k0, v0⟩ := e
    by_cases hk : k0 = ns
    · subst hk; simpa [mapDeleteG] using ih
    · have ih' := ih
      simp only [mapDeleteG] at ih' ⊢
      cases v0 <;> simp [hk, Autoload.stringEntries, mapGet] <;>
        simpa using ih' 

/-- Lookup through the string-valued projection of a dynamic map with
unique keys: present string entries survive, everything else reads as
absent. -/
theorem stringEntries_lookup (m : List (String × GoVal)) (k : String)
    (h : NodupKeysG m) :
    mapGet (Autoload.stringEntries m) k =
      (match mapGetG m k with
       | some (.vStr s) => some s
       | _ => none) := by
  induction m with
  | nil => rfl
  | cons e r ih =>
    obtain ⟨k0, v0⟩ := e
    have hnd' : NodupKeysG r := by
      simpa [NodupKeysG] using (List.nodup_cons.mp h).2
    have hk0 : k0 ∉ r.map Prod.fst := (List.nodup_cons.mp h).1
    by_cases hk : k0 = k
    · subst hk
      have hr : mapGetG r k0 = none := mapGetG_eq_none_of_notMem r k0 hk0
      cases v0 <;>
        simp [Autoload.stringEntries, mapGet, mapGetG,
          stringEntries_get_none r k0 hr]
    · cases v0 <;>
        simp [Autoload.stringEntries, mapGet, mapGetG, hk, ih hnd']

/-- Claim C7: The PSR-4 read: `ok=false` whenever the slot is not a
string-keyed map; on a map it returns `ok=true` and exactly the
string-valued entries, silently omitting the others — `ok=true` even when
the surviving map is empty. -/
theorem getPSR4Map_spec (a : Autoload) :
    (a.psr4.isMapShape = false → Autoload.GetPSR4Map a = (none, false)) ∧
    (∀ m, a.psr4 = .vMap m → (Autoload.GetPSR4Map a).2 = true) ∧
    (∀ m k, a.psr4 = .vMap m → NodupKeysG m →
      psr4Lookup (Autoload.GetPSR4Map a).1 k =
        (match mapGetG m k with
         | some (.vStr s) => some s
         | _ => none)) ∧
    Autoload.GetPSR4Map { psr4 := .vMap [("Vendor\\", .vInt 1)] } =
      (some [], true) := by
  refine ⟨?_, ?_, ?_, rfl⟩
  · intro h
    cases hps : a.psr4 <;> simp [Autoload.GetPSR4Map, hps] <;>
      simp [hps, GoVal.isMapShape] at h
  · intro m hps
    simp [Autoload.GetPSR4Map, hps]
  · intro m k hps hnd
    simp only [Autoload.GetPSR4Map, hps, psr4Lookup]
    exact stringEntries_lookup m k hnd

/-- Witness for C7: a non-map slot reads as `(nil, false)`; a map slot
with one string-valued and one list-valued entry reads back only the
string-valued one, with `ok=true`. -/
theorem getPSR4Map_spec_witness :
    Autoload.GetPSR4Map { psr4 := .vStr "src/" } = (none, false) ∧
    psr4Lookup (Autoload.GetPSR4Map
      { psr4 := .vMap [("A\\", .vStr "src/"), ("B\\", .vList [])] }).1 "A\\" =
      some "src/" ∧
    psr4Lookup (Autoload.GetPSR4Map
      { psr4 := .vMap [("A\\", .vStr "src/"), ("B\\", .vList [])] }).1 "B\\" =
      none := by
  refine ⟨(getPSR4Map_spec { psr4 := .vStr "src/" }).1 rfl, ?_, ?_⟩
  · rw [(getPSR4Map_spec _).2.2.1 [("A\\", .vStr "src/"), ("B\\", .vList [])]
      "A\\" rfl (by decide)]
    rfl
  · rw [(getPSR4Map_spec _).2.2.1 [("A\\", .vStr "src/"), ("B\\", .vList [])]
      "B\\" rfl (by decide)]
    rfl

/-- Claim C8: PSR-4 round trip: after `set(slot, ns, p)` — which replaces a
non-map slot by a fresh map first — reading yields `ok=true` and the
binding `ns -> p`; after `remove(slot, ns)`, reading no longer finds
`ns`. -/
theorem psr4_roundtrip (a : Autoload) (ns p : String) :
    ((Autoload.GetPSR4Map (Autoload.SetPSR4 a ns p)).2 = true ∧
      psr4Lookup (Autoload.GetPSR4Map (Autoload.SetPSR4 a ns p)).1 ns = some p) ∧
    psr4Lookup (Autoload.GetPSR4Map (Autoload.RemovePSR4 a ns).1).1 ns = none := by
  refine ⟨⟨?_, ?_⟩, ?_⟩
  · cases hps : a.psr4 <;> simp [Autoload.SetPSR4, hps, Autoload.GetPSR4Map]
  · cases hps : a.psr4
    case vMap m =>
      simp only [Autoload.SetPSR4, hps, Autoload.GetPSR4Map, psr4Lookup]
      exact stringEntries_insert_get m ns p
    all_goals
      simp [Autoload.SetPSR4, hps, Autoload.GetPSR4Map, psr4Lookup,
        Autoload.stringEntries, mapGet]
  · cases hps : a.psr4
    case vMap m =>
      simp only [Autoload.RemovePSR4, hps]
      by_cases hm : (mapGetG m ns).isSome = true
      · simp only [hm, if_true, Autoload.GetPSR4Map, psr4Lookup]
        exact stringEntries_delete_get m ns
      · have hnone : mapGetG m ns = none := by
          cases hgo : mapGetG m ns with
          | none => rfl
          | some v => simp [hgo] at hm
        simp [hm, Autoload.GetPSR4Map, hps, psr4Lookup,
          stringEntries_get_none m ns hnone]
    all_goals
      simp [Autoload.RemovePSR4, hps, Autoload.GetPSR4Map, psr4Lookup]

/-- Witness for C8: setting over a foreign string slot installs the
binding; removing an existing binding makes it unreadable. -/
theorem psr4_roundtrip_witness :
    psr4Lookup (Autoload.GetPSR4Map
      (Autoload.SetPSR4 { psr4 := .vStr "junk" } "App\\" "src/")).1 "App\\" =
      some "src/" ∧
    psr4Lookup (Autoload.GetPSR4Map
      (Autoload.RemovePSR4
        { psr4 := .vMap [("App\\", .vStr "src/")] } "App\\").1).1 "App\\" =
      none :=
  ⟨(psr4_roundtrip { psr4 := .vStr "junk" } "App\\" "src/").1.2,
   (psr4_roundtrip { psr4 := .vMap [("App\\", .vStr "src/")] } "App\\" "src/").2⟩

/-! ## Completeness of the range automaton on constructed inputs

Used to settle the claims about the two-clause range branch: disjointness
of the character classes, and acceptance of any string built from two
numeric tokens (1–3 dot-separated digit groups, optional single-character
operator) separated by whitespace. -/

theorem digit_not_rangeOp (c : Char) (h : isDigitCh c = true) :
    isRangeOp c = false := by
  by_cases h1 : c = '>'
  · subst h1; exact absurd h (by decide)
  by_cases h2 : c = '<'
  · subst h2; exact absurd h (by decide)
  by_cases h3 : c = '='
  · subst h3; exact absurd h (by decide)
  by_cases h4 : c = '!'
  · subst h4; exact absurd h (by decide)
  simp [isRangeOp, h1, h2, h3, h4]

theorem digit_not_ws (c : Char) (h : isDigitCh c = true) : isWsCh c = false := by
  by_cases h1 : c = ' '
  · subst h1; exact absurd h (by decide)
  by_cases h2 : c = '\t'
  · subst h2; exact absurd h (by decide)
  by_cases h3 : c = '\n'
  · subst h3; exact absurd h (by decide)
  by_cases h4 : c = '\x0c'
  · subst h4; exact absurd h (by decide)
  by_cases h5 : c = '\r'
  · subst h5; exact absurd h (by decide)
  simp [isWsCh, h1, h2, h3, h4, h5]

theorem ws_not_digit (c : Char) (h : isWsCh c = true) : isDigitCh c = false := by
  simp only [isWsCh, Bool.or_eq_true, decide_eq_true_eq] at h
  rcases h with ((((h | h) | h) | h) | h) <;> subst h <;> decide

theorem ws_ne_dot (c : Char) (h : isWsCh c = true) : ¬(c = '.') := by
  simp only [isWsCh, Bool.or_eq_true, decide_eq_true_eq] at h
  rcases h with ((((h | h) | h) | h) | h) <;> subst h <;> decide

theorem op_not_ws (c : Char) (h : isRangeOp c = true) : isWsCh c = false := by
  simp only [isRangeOp, Bool.or_eq_true, decide_eq_true_eq] at h
  rcases h with ((h | h) | h) | h <;> subst h <;> decide

/-- `[c]` for an optional operator character. -/
def optOpL : Option Char → List Char
  | none => []
  | some c => [c]

/-- `.digits` for an optional `(\.[0-9]+)` group. -/
def optDotL : Option (List Char) → List Char
  | none => []
  | some d => '.' :: d

/-- One token of the range regex: `[><=!]?[0-9]+(\.[0-9]+)?(\.[0-9]+)?`. -/
def rangeTok (op : Option Char) (a : List Char) (b c : Option (List Char)) :
    List Char :=
  optOpL op ++ a ++ optDotL b ++ optDotL c

/-- Running the range automaton over one well-formed token, from either
the start state (first clause) or the whitespace state (second clause):
the run lands in one of the three `digits`-states of that clause. -/
theorem rangeTok_dfaMany
    (st t0 t1 t2 t3 t4 t5 : RState)
    (hstOp : ∀ ch, isRangeOp ch = true → rangeStep st ch = some t0)
    (hstD : ∀ ch, isDigitCh ch = true → rangeStep st ch = some t1)
    (ha0D : ∀ ch, isDigitCh ch = true → rangeStep t0 ch = some t1)
    (ha1D : ∀ ch, isDigitCh ch = true → rangeStep t1 ch = some t1)
    (ha1Dot : rangeStep t1 '.' = some t2)
    (ha2D : ∀ ch, isDigitCh ch = true → rangeStep t2 ch = some t3)
    (ha3D : ∀ ch, isDigitCh ch = true → rangeStep t3 ch = some t3)
    (ha3Dot : rangeStep t3 '.' = some t4)
    (ha4D : ∀ ch, isDigitCh ch = true → rangeStep t4 ch = some t5)
    (ha5D : ∀ ch, isDigitCh ch = true → rangeStep t5 ch = some t5)
    (op : Option Char) (a : List Char) (b c : Option (List Char))
    (hop : ∀ o, op = some o → isRangeOp o = true)
    (haNE : a ≠ []) (haD : ∀ ch ∈ a, isDigitCh ch = true)
    (hb : ∀ l, b = some l → l ≠ [] ∧ ∀ ch ∈ l, isDigitCh ch = true)
    (hc : ∀ l, c = some l → l ≠ [] ∧ ∀ ch ∈ l, isDigitCh ch = true) :
    ∃ s', dfaMany rangeStep st (rangeTok op a b c) = some s' ∧
      (s' = t1 ∨ s' = t3 ∨ s' = t5) := by
  -- consuming an optional `.digits` group
  have hdot : ∀ (x y z : RState), rangeStep x '.' = some y →
      (∀ ch, isDigitCh ch = true → rangeStep y ch = some z) →
      (∀ ch, isDigitCh ch = true → rangeStep z ch = some z) →
      ∀ l, l ≠ [] → (∀ ch ∈ l, isDigitCh ch = true) →
      dfaMany rangeStep x (optDotL (some l)) = some z := by
    intro x y z hx hy hz l hl0 hlD
    cases l with
    | nil => exact absurd rfl hl0
    | cons e es =>
      simp only [optDotL, dfaMany, hx, hy e (hlD e (List.mem_cons_self e es))]
      exact dfaMany_loop rangeStep z es
        (fun ch hch => hz ch (hlD ch (List.mem_cons_of_mem e hch)))
  -- the optional operator
  have hOp : ∃ s1, dfaMany rangeStep st (optOpL op) = some s1 ∧
      (∀ ch, isDigitCh ch = true → rangeStep s1 ch = some t1) := by
    cases op with
    | none => exact ⟨st, rfl, hstD⟩
    | some o =>
      refine ⟨t0, ?_, ha0D⟩
      simp [optOpL, dfaMany, hstOp o (hop o rfl)]
  obtain ⟨s1, hs1, hs1D⟩ := hOp
  -- the digits of the first numeric component
  have hA : dfaMany rangeStep st (optOpL op ++ a) = some t1 := by
    rw [dfaMany_append, hs1]
    cases a with
    | nil => exact absurd rfl haNE
    | cons ch rest =>
      simp only [dfaMany, hs1D ch (haD ch (List.mem_cons_self ch rest))]
      exact dfaMany_loop rangeStep t1 rest
        (fun ch' hch' => ha1D ch' (haD ch' (List.mem_cons_of_mem ch hch')))
  -- the first optional dot group
  have hB : ∃ sB, dfaMany rangeStep st (optOpL op ++ a ++ optDotL b) = some sB ∧
      (sB = t1 ∨ sB = t3) := by
    cases b with
    | none =>
      refine ⟨t1, ?_, Or.inl rfl⟩
      simpa [optDotL] using hA
    | some lb =>
      refine ⟨t3, ?_, Or.inr rfl⟩
      rw [dfaMany_append, hA]
      exact hdot t1 t2 t3 ha1Dot ha2D ha3D lb (hb lb rfl).1 (hb lb rfl).2
  obtain ⟨sB, hsB, hsBor⟩ := hB
  -- the second optional dot group
  cases c with
  | none =>
    refine ⟨sB, ?_, ?_⟩
    · simpa [rangeTok, optDotL] using hsB
    · rcases hsBor with h | h
      · exact Or.inl h
      · exact Or.inr (Or.inl h)
  | some lc =>
    rcases hsBor with h | h
    · rw [h] at hsB
      refine ⟨t3, ?_, Or.inr (Or.inl rfl)⟩
      rw [rangeTok, dfaMany_append, hsB]
      exact hdot t1 t2 t3 ha1Dot ha2D ha3D lc (hc lc rfl).1 (hc lc rfl).2
    · rw [h] at hsB
      refine ⟨t5, ?_, Or.inr (Or.inr rfl)⟩
      rw [rangeTok, dfaMany_append, hsB]
      exact hdot t3 t4 t5 ha3Dot ha4D ha5D lc (hc lc rfl).1 (hc lc rfl).2

/-- Any match of the range regex makes `ValidateVersion` succeed (every
earlier branch of the cascade also returns success). -/
theorem validateVersion_of_rangeMatch (v : String)
    (h : rangeMatch v.data = true) : Validation.ValidateVersion v = none := by
  unfold Validation.ValidateVersion
  rw [h]
  simp

/-- Claim C10: Any string made of two whitespace-separated numeric tokens —
each token 1–3 dot-separated digit groups, optionally prefixed by a single
character from `[><=!]`, and in particular with no operator at all — is
accepted by the range branch, so `ValidateVersion` succeeds (e.g.
`"1.0 2.0"`). -/
theorem validateVersion_range_accepts (op1 op2 : Option Char)
    (a1 a2 : List Char) (b1 c1 b2 c2 : Option (List Char)) (ws : List Char)
    (hop1 : ∀ o, op1 = some o → isRangeOp o = true)
    (hop2 : ∀ o, op2 = some o → isRangeOp o = true)
    (ha1 : a1 ≠ [] ∧ ∀ ch ∈ a1, isDigitCh ch = true)
    (ha2 : a2 ≠ [] ∧ ∀ ch ∈ a2, isDigitCh ch = true)
    (hb1 : ∀ l, b1 = some l → l ≠ [] ∧ ∀ ch ∈ l, isDigitCh ch = true)
    (hc1 : ∀ l, c1 = some l → l ≠ [] ∧ ∀ ch ∈ l, isDigitCh ch = true)
    (hb2 : ∀ l, b2 = some l → l ≠ [] ∧ ∀ ch ∈ l, isDigitCh ch = true)
    (hc2 : ∀ l, c2 = some l → l ≠ [] ∧ ∀ ch ∈ l, isDigitCh ch = true)
    (hws : ws ≠ [] ∧ ∀ ch ∈ ws, isWsCh ch = true) :
    rangeMatch (rangeTok op1 a1 b1 c1 ++ ws ++ rangeTok op2 a2 b2 c2) = true ∧
    Validation.ValidateVersion
      (String.mk (rangeTok op1 a1 b1 c1 ++ ws ++ rangeTok op2 a2 b2 c2)) =
      none := by
  obtain ⟨hws0, hwsD⟩ := hws
  -- first token: from the start state into one of the `a`-digit states
  obtain ⟨s1, hs1, hs1or⟩ := rangeTok_dfaMany .s .a0 .a1 .a2 .a3 .a4 .a5
    (fun ch h => by simp [rangeStep, h])
    (fun ch h => by simp [rangeStep, h, digit_not_rangeOp ch h])
    (fun ch h => by simp [rangeStep, h])
    (fun ch h => by simp [rangeStep, h])
    (by decide)
    (fun ch h => by simp [rangeStep, h])
    (fun ch h => by simp [rangeStep, h])
    (by decide)
    (fun ch h => by simp [rangeStep, h])
    (fun ch h => by simp [rangeStep, h])
    op1 a1 b1 c1 hop1 ha1.1 ha1.2 hb1 hc1
  -- second token: from the whitespace state into one of the `b`-digit states
  obtain ⟨s2, hs2, hs2or⟩ := rangeTok_dfaMany .w .b0 .b1 .b2 .b3 .b4 .b5
    (fun ch h => by simp [rangeStep, h, op_not_ws ch h])
    (fun ch h => by simp [rangeStep, h, digit_not_rangeOp ch h, digit_not_ws ch h])
    (fun ch h => by simp [rangeStep, h])
    (fun ch h => by simp [rangeStep, h])
    (by decide)
    (fun ch h => by simp [rangeStep, h])
    (fun ch h => by simp [rangeStep, h])
    (by decide)
    (fun ch h => by simp [rangeStep, h])
    (fun ch h => by simp [rangeStep, h])
    op2 a2 b2 c2 hop2 ha2.1 ha2.2 hb2 hc2
  have hmatch :
      rangeMatch (rangeTok op1 a1 b1 c1 ++ ws ++ rangeTok op2 a2 b2 c2) = true := by
    unfold rangeMatch
    rw [List.append_assoc]
    rw [dfaRun_append]
    rw [hs1]
    cases ws with
    | nil => exact absurd rfl hws0
    | cons w wrest =>
      have hwch : isWsCh w = true := hwsD w (List.mem_cons_self w wrest)
      have hstepw : rangeStep s1 w = some .w := by
        rcases hs1or with rfl | rfl | rfl <;>
          simp [rangeStep, ws_not_digit w hwch, ws_ne_dot w hwch, hwch]
      simp only [List.cons_append, dfaRun, hstepw]
      show dfaRun rangeStep rangeAccept .w (wrest ++ rangeTok op2 a2 b2 c2) = true
      rw [dfaRun_append]
      rw [dfaMany_loop rangeStep .w wrest
        (fun ch hch => by
          simp [rangeStep, hwsD ch (List.mem_cons_of_mem w hch)])]
      show dfaRun rangeStep rangeAccept .w (rangeTok op2 a2 b2 c2) = true
      have htok : rangeTok op2 a2 b2 c2 = rangeTok op2 a2 b2 c2 ++ [] := by simp
      rw [htok, dfaRun_append, hs2]
      show dfaRun rangeStep rangeAccept s2 [] = true
      rcases hs2or with rfl | rfl | rfl <;> rfl
  refine ⟨hmatch, validateVersion_of_rangeMatch _ ?_⟩
  exact hmatch

/-- Witness for C10: the operator-free range `"1.0 2.0"` is accepted. -/
theorem validateVersion_range_accepts_witness :
    rangeMatch "1.0 2.0".data = true ∧
    Validation.ValidateVersion "1.0 2.0" = none := by
  have h := validateVersion_range_accepts none none ['1'] ['2']
    (some ['0']) none (some ['0']) none [' ']
    (by intro o ho; cases ho) (by intro o ho; cases ho)
    (by decide) (by decide)
    (by intro l hl; cases hl; exact ⟨by decide, by decide⟩)
    (by intro l hl; cases hl)
    (by intro l hl; cases hl; exact ⟨by decide, by decide⟩)
    (by intro l hl; cases hl)
    (by decide)
  exact h

/-! ## Soundness facts: where the automata die

Used to settle the rejection side of the range claims: a whitespace
character kills the single-version automaton from every state, and the
range automaton has no transition for a second operator character or for
a `-`/`+` suffix after a numeric token. -/

theorem digit_ne_d (c : Char) (h : isDigitCh c = true) : ¬c = 'd' := by
  intro hEq; subst hEq; exact absurd h (by decide)

theorem rangeOp_ne_d (c : Char) (h : isRangeOp c = true) : ¬c = 'd' := by
  intro hEq; subst hEq; exact absurd h (by decide)

theorem hasDevDash_false_of_head (c : Char) (h : ¬c = 'd') (l : List Char) :
    hasDevDash (c :: l) = false := by
  match l with
  | [] => rfl
  | [c2] => rfl
  | [c2, c3] => rfl
  | c2 :: c3 :: c4 :: r => simp [hasDevDash, h]

/-- The head of a well-formed range token is an operator or a digit, so a
string starting with such a token never has the `dev-` prefix. -/
theorem hasDevDash_rangeTok (op1 : Option Char) (a : List Char)
    (b c : Option (List Char))
    (hop1 : ∀ o, op1 = some o → isRangeOp o = true)
    (haNE : a ≠ []) (haD : ∀ ch ∈ a, isDigitCh ch = true)
    (rest : List Char) :
    hasDevDash (rangeTok op1 a b c ++ rest) = false := by
  cases op1 with
  | some o =>
    have hsh : rangeTok (some o) a b c ++ rest =
        o :: (a ++ optDotL b ++ optDotL c ++ rest) := by
      simp [rangeTok, optOpL, List.append_assoc]
    rw [hsh]
    exact hasDevDash_false_of_head o (rangeOp_ne_d o (hop1 o rfl)) _
  | none =>
    cases a with
    | nil => exact absurd rfl haNE
    | cons d0 arest =>
      have hsh : rangeTok none (d0 :: arest) b c ++ rest =
          d0 :: (arest ++ optDotL b ++ optDotL c ++ rest) := by
        simp [rangeTok, optOpL, List.append_assoc]
      rw [hsh]
      exact hasDevDash_false_of_head d0
        (digit_ne_d d0 (haD d0 (List.mem_cons_self d0 arest))) _

/-- Whitespace is dead for the single-version automaton in every state
(no character class of that regex contains a whitespace character). -/
theorem ws_kills_versionStep (c : Char) (hc : isWsCh c = true) :
    ∀ vs : VState, versionStep vs c = none := by
  simp only [isWsCh, Bool.or_eq_true, decide_eq_true_eq] at hc
  rcases hc with ((((h | h) | h) | h) | h) <;> subst h <;>
    intro vs <;> cases vs <;> decide

/-- A run over a string containing a universally dead character fails. -/
theorem dfaRun_false_of_dead {σ : Type} (step : σ → Char → Option σ)
    (accept : σ → Bool) (c : Char) (hdead : ∀ s : σ, step s c = none) :
    ∀ (s0 : σ) (x y : List Char), dfaRun step accept s0 (x ++ c :: y) = false := by
  intro s0 x y
  induction x generalizing s0 with
  | nil => simp [dfaRun, hdead]
  | cons h t ih =>
    simp only [List.cons_append, dfaRun]
    cases step s0 h with
    | none => rfl
    | some s' => exact ih s'

/-- A run that reaches a state with no transition on the next character
fails, whatever follows. -/
theorem dfaRun_false_of_prefix_dead {σ : Type} (step : σ → Char → Option σ)
    (accept : σ → Bool) (s0 : σ) (x : List Char) (s' : σ) (c : Char)
    (y : List Char) (hx : dfaMany step s0 x = some s') (hc : step s' c = none) :
    dfaRun step accept s0 (x ++ c :: y) = false := by
  rw [dfaRun_append, hx]
  show dfaRun step accept s' (c :: y) = false
  simp [dfaRun, hc]

/-- The single-version regex matches no string containing whitespace. -/
theorem versionMatch_false_of_ws_mem (l : List Char)
    (hex : ∃ ch ∈ l, isWsCh ch = true) : versionMatch l = false := by
  obtain ⟨ch, hmem, hch⟩ := hex
  obtain ⟨x, y, rfl⟩ := List.append_of_mem hmem
  show dfaRun versionStep versionAccept .st (x ++ ch :: y) = false
  exact dfaRun_false_of_dead versionStep versionAccept ch
    (ws_kills_versionStep ch hch) .st x y

/-- A string containing whitespace that the range regex also rejects is
rejected by the whole cascade with `InvalidVersionFormat` (it is nonempty,
is not `*`, has no `dev-` prefix by hypothesis, and cannot match the
single-version regex). -/
theorem validateVersion_eq_invalid_of (v : String)
    (hws : ∃ ch ∈ v.data, isWsCh ch = true)
    (hdev : hasDevDash v.data = false)
    (hrange : rangeMatch v.data = false) :
    Validation.ValidateVersion v = some (.invalidVersionFormat v) := by
  obtain ⟨cw, hmem, hcw⟩ := hws
  have h0 : ¬v = "" := by
    intro h; subst h
    rw [show ("" : String).data = [] from rfl] at hmem
    exact absurd hmem (List.not_mem_nil cw)
  have h1 : ¬v = "*" := by
    intro h; subst h
    rw [show ("*" : String).data = ['*'] from rfl] at hmem
    have hcw' : cw = '*' := by simpa using hmem
    subst hcw'
    exact absurd hcw (by decide)
  have h3 : versionMatch v.data = false :=
    versionMatch_false_of_ws_mem v.data ⟨cw, hmem, hcw⟩
  unfold Validation.ValidateVersion
  simp [h0, h1, hdev, h3, hrange]

/-- `rangeTok_dfaMany` instantiated at the first clause's states. -/
theorem rangeTok_dfaMany_s (op1 : Option Char) (a : List Char)
    (b c : Option (List Char))
    (hop1 : ∀ o, op1 = some o → isRangeOp o = true)
    (haNE : a ≠ []) (haD : ∀ ch ∈ a, isDigitCh ch = true)
    (hb : ∀ l, b = some l → l ≠ [] ∧ ∀ ch ∈ l, isDigitCh ch = true)
    (hc : ∀ l, c = some l → l ≠ [] ∧ ∀ ch ∈ l, isDigitCh ch = true) :
    ∃ s', dfaMany rangeStep .s (rangeTok op1 a b c) = some s' ∧
      (s' = .a1 ∨ s' = .a3 ∨ s' = .a5) :=
  rangeTok_dfaMany .s .a0 .a1 .a2 .a3 .a4 .a5
    (fun ch h => by simp [rangeStep, h])
    (fun ch h => by simp [rangeStep, h, digit_not_rangeOp ch h])
    (fun ch h => by simp [rangeStep, h])
    (fun ch h => by simp [rangeStep, h])
    (by decide)
    (fun ch h => by simp [rangeStep, h])
    (fun ch h => by simp [rangeStep, h])
    (by decide)
    (fun ch h => by simp [rangeStep, h])
    (fun ch h => by simp [rangeStep, h])
    op1 a b c hop1 haNE haD hb hc

/-- `rangeTok_dfaMany` instantiated at the second clause's states. -/
theorem rangeTok_dfaMany_w (op2 : Option Char) (a : List Char)
    (b c : Option (List Char))
    (hop2 : ∀ o, op2 = some o → isRangeOp o = true)
    (haNE : a ≠ []) (haD : ∀ ch ∈ a, isDigitCh ch = true)
    (hb : ∀ l, b = some l → l ≠ [] ∧ ∀ ch ∈ l, isDigitCh ch = true)
    (hc : ∀ l, c = some l → l ≠ [] ∧ ∀ ch ∈ l, isDigitCh ch = true) :
    ∃ s', dfaMany rangeStep .w (rangeTok op2 a b c) = some s' ∧
      (s' = .b1 ∨ s' = .b3 ∨ s' = .b5) :=
  rangeTok_dfaMany .w .b0 .b1 .b2 .b3 .b4 .b5
    (fun ch h => by simp [rangeStep, h, op_not_ws ch h])
    (fun ch h => by simp [rangeStep, h, digit_not_rangeOp ch h, digit_not_ws ch h])
    (fun ch h => by simp [rangeStep, h])
    (fun ch h => by simp [rangeStep, h])
    (by decide)
    (fun ch h => by simp [rangeStep, h])
    (fun ch h => by simp [rangeStep, h])
    (by decide)
    (fun ch h => by simp [rangeStep, h])
    (fun ch h => by simp [rangeStep, h])
    op2 a b c hop2 haNE haD hb hc

/-- A well-formed token followed by whitespace drives the range automaton
into the whitespace state. -/
theorem rangeTok_ws_many (op1 : Option Char) (a : List Char)
    (b c : Option (List Char)) (ws : List Char)
    (hop1 : ∀ o, op1 = some o → isRangeOp o = true)
    (haNE : a ≠ []) (haD : ∀ ch ∈ a, isDigitCh ch = true)
    (hb : ∀ l, b = some l → l ≠ [] ∧ ∀ ch ∈ l, isDigitCh ch = true)
    (hc : ∀ l, c = some l → l ≠ [] ∧ ∀ ch ∈ l, isDigitCh ch = true)
    (hwsNE : ws ≠ []) (hwsD : ∀ ch ∈ ws, isWsCh ch = true) :
    dfaMany rangeStep .s (rangeTok op1 a b c ++ ws) = some .w := by
  obtain ⟨s1, hs1, hs1or⟩ := rangeTok_dfaMany_s op1 a b c hop1 haNE haD hb hc
  rw [dfaMany_append, hs1]
  cases ws with
  | nil => exact absurd rfl hwsNE
  | cons w wrest =>
    have hwch : isWsCh w = true := hwsD w (List.mem_cons_self w wrest)
    have hstepw : rangeStep s1 w = some .w := by
      rcases hs1or with rfl | rfl | rfl <;>
        simp [rangeStep, ws_not_digit w hwch, ws_ne_dot w hwch, hwch]
    show dfaMany rangeStep s1 (w :: wrest) = some .w
    simp only [dfaMany, hstepw]
    exact dfaMany_loop rangeStep .w wrest
      (fun ch hch => by simp [rangeStep, hwsD ch (List.mem_cons_of_mem w hch)])

/-- Claim C2 counterexample: The two-clause range tokens admit only a
single-character `[><=!]` operator, so the claim's own example
`">=1.0.0 <2.0.0"` (a two-character operator on the first token) is
rejected with `InvalidVersionFormat`, not accepted. -/
theorem validateVersion_range_cex :
    Validation.ValidateVersion ">=1.0.0 <2.0.0" =
      some (.invalidVersionFormat ">=1.0.0 <2.0.0") := by decide

/-- Claim C2 amended: In a whitespace-separated string of two tokens,
only tokens with at most a single-character `> < = !` prefix and no
prerelease/build suffix pass the range branch; every other token shape of
the original claim is rejected with `InvalidVersionFormat`, in full
generality over the numeric bodies: (i) a first token prefixed by one of
`>= <= != == ^ ~` (whatever follows, provided whitespace occurs later);
(ii) such a prefix on the second token, after a well-formed first token;
(iii) a `-`/`+` suffix attached to the first token; (iv) a `-`/`+` suffix
attached to the second token.  The single-version regex never matches (it
admits no whitespace), and the range automaton has no transition for the
offending character. -/
theorem validateVersion_range_rejects_badTokens
    (op : String) (hop : op ∈ [">=", "<=", "!=", "==", "^", "~"])
    (op1 : Option Char) (a : List Char) (b c : Option (List Char))
    (hop1 : ∀ o, op1 = some o → isRangeOp o = true)
    (haNE : a ≠ []) (haD : ∀ ch ∈ a, isDigitCh ch = true)
    (hb : ∀ l, b = some l → l ≠ [] ∧ ∀ ch ∈ l, isDigitCh ch = true)
    (hc : ∀ l, c = some l → l ≠ [] ∧ ∀ ch ∈ l, isDigitCh ch = true)
    (op2 : Option Char) (a2 : List Char) (b2 c2 : Option (List Char))
    (hop2 : ∀ o, op2 = some o → isRangeOp o = true)
    (ha2NE : a2 ≠ []) (ha2D : ∀ ch ∈ a2, isDigitCh ch = true)
    (hb2 : ∀ l, b2 = some l → l ≠ [] ∧ ∀ ch ∈ l, isDigitCh ch = true)
    (hc2 : ∀ l, c2 = some l → l ≠ [] ∧ ∀ ch ∈ l, isDigitCh ch = true)
    (ws : List Char) (hwsNE : ws ≠ []) (hwsD : ∀ ch ∈ ws, isWsCh ch = true)
    (suf : Char) (hsuf : suf = '-' ∨ suf = '+')
    (rest : List Char) (hrest : ∃ ch ∈ rest, isWsCh ch = true)
    (rest2 : List Char) :
    Validation.ValidateVersion (String.mk (op.data ++ rest)) =
      some (.invalidVersionFormat (String.mk (op.data ++ rest))) ∧
    Validation.ValidateVersion
        (String.mk (rangeTok op1 a b c ++ ws ++ op.data ++ rest2)) =
      some (.invalidVersionFormat
        (String.mk (rangeTok op1 a b c ++ ws ++ op.data ++ rest2))) ∧
    Validation.ValidateVersion
        (String.mk (rangeTok op1 a b c ++ suf :: rest)) =
      some (.invalidVersionFormat
        (String.mk (rangeTok op1 a b c ++ suf :: rest))) ∧
    Validation.ValidateVersion
        (String.mk (rangeTok op1 a b c ++ ws ++ rangeTok op2 a2 b2 c2 ++
          suf :: rest2)) =
      some (.invalidVersionFormat
        (String.mk (rangeTok op1 a b c ++ ws ++ rangeTok op2 a2 b2 c2 ++
          suf :: rest2))) := by
  obtain ⟨w0, wrest, rfl⟩ : ∃ h t, ws = h :: t := by
    cases ws with
    | nil => exact absurd rfl hwsNE
    | cons h t => exact ⟨h, t, rfl⟩
  have hw0 : isWsCh w0 = true := hwsD w0 (List.mem_cons_self w0 wrest)
  have hwsmany := rangeTok_ws_many op1 a b c (w0 :: wrest)
    hop1 haNE haD hb hc (by simp) hwsD
  obtain ⟨s1, hs1, hs1or⟩ := rangeTok_dfaMany_s op1 a b c hop1 haNE haD hb hc
  obtain ⟨s2, hs2, hs2or⟩ := rangeTok_dfaMany_w op2 a2 b2 c2 hop2 ha2NE ha2D hb2 hc2
  refine ⟨?_, ?_, ?_, ?_⟩
  · -- (i) bad operator on the first token
    obtain ⟨cr, hcrmem, hcr⟩ := hrest
    fin_cases hop
    all_goals refine validateVersion_eq_invalid_of _ ⟨cr, by simp [hcrmem], hcr⟩ ?_ ?_
    · exact hasDevDash_false_of_head '>' (by decide) _
    · exact dfaRun_false_of_prefix_dead rangeStep rangeAccept .s ['>'] .a0 '=' rest rfl rfl
    · exact hasDevDash_false_of_head '<' (by decide) _
    · exact dfaRun_false_of_prefix_dead rangeStep rangeAccept .s ['<'] .a0 '=' rest rfl rfl
    · exact hasDevDash_false_of_head '!' (by decide) _
    · exact dfaRun_false_of_prefix_dead rangeStep rangeAccept .s ['!'] .a0 '=' rest rfl rfl
    · exact hasDevDash_false_of_head '=' (by decide) _
    · exact dfaRun_false_of_prefix_dead rangeStep rangeAccept .s ['='] .a0 '=' rest rfl rfl
    · exact hasDevDash_false_of_head '^' (by decide) _
    · exact dfaRun_false_of_prefix_dead rangeStep rangeAccept .s [] .s '^' rest rfl rfl
    · exact hasDevDash_false_of_head '~' (by decide) _
    · exact dfaRun_false_of_prefix_dead rangeStep rangeAccept .s [] .s '~' rest rfl rfl
  · -- (ii) bad operator on the second token
    refine validateVersion_eq_invalid_of _
      ⟨w0, by simp, hw0⟩ ?_ ?_
    · have hsh : ((rangeTok op1 a b c ++ (w0 :: wrest)) ++ op.data) ++ rest2 =
          rangeTok op1 a b c ++ ((w0 :: wrest) ++ (op.data ++ rest2)) := by
        simp [List.append_assoc]
      show hasDevDash (((rangeTok op1 a b c ++ (w0 :: wrest)) ++ op.data) ++ rest2) = false
      rw [hsh]
      exact hasDevDash_rangeTok op1 a b c hop1 haNE haD _
    · have hb0 : ∀ o, isRangeOp o = true →
          dfaMany rangeStep .s ((rangeTok op1 a b c ++ (w0 :: wrest)) ++ [o]) =
            some .b0 := by
        intro o ho
        rw [dfaMany_append, hwsmany]
        show dfaMany rangeStep .w [o] = some .b0
        simp [dfaMany, rangeStep, ho, op_not_ws o ho]
      fin_cases hop
      · rw [show ((rangeTok op1 a b c ++ (w0 :: wrest)) ++ (">=" : String).data) ++ rest2 =
            ((rangeTok op1 a b c ++ (w0 :: wrest)) ++ ['>']) ++ '=' :: rest2 from by simp]
        exact dfaRun_false_of_prefix_dead rangeStep rangeAccept .s _ .b0 '=' rest2
          (hb0 '>' (by decide)) rfl
      · rw [show ((rangeTok op1 a b c ++ (w0 :: wrest)) ++ ("<=" : String).data) ++ rest2 =
            ((rangeTok op1 a b c ++ (w0 :: wrest)) ++ ['<']) ++ '=' :: rest2 from by simp]
        exact dfaRun_false_of_prefix_dead rangeStep rangeAccept .s _ .b0 '=' rest2
          (hb0 '<' (by decide)) rfl
      · rw [show ((rangeTok op1 a b c ++ (w0 :: wrest)) ++ ("!=" : String).data) ++ rest2 =
            ((rangeTok op1 a b c ++ (w0 :: wrest)) ++ ['!']) ++ '=' :: rest2 from by simp]
        exact dfaRun_false_of_prefix_dead rangeStep rangeAccept .s _ .b0 '=' rest2
          (hb0 '!' (by decide)) rfl
      · rw [show ((rangeTok op1 a b c ++ (w0 :: wrest)) ++ ("==" : String).data) ++ rest2 =
            ((rangeTok op1 a b c ++ (w0 :: wrest)) ++ ['=']) ++ '=' :: rest2 from by simp]
        exact dfaRun_false_of_prefix_dead rangeStep rangeAccept .s _ .b0 '=' rest2
          (hb0 '=' (by decide)) rfl
      · rw [show ((rangeTok op1 a b c ++ (w0 :: wrest)) ++ ("^" : String).data) ++ rest2 =
            (rangeTok op1 a b c ++ (w0 :: wrest)) ++ '^' :: rest2 from by simp]
        exact dfaRun_false_of_prefix_dead rangeStep rangeAccept .s _ .w '^' rest2
          hwsmany rfl
      · rw [show ((rangeTok op1 a b c ++ (w0 :: wrest)) ++ ("~" : String).data) ++ rest2 =
            (rangeTok op1 a b c ++ (w0 :: wrest)) ++ '~' :: rest2 from by simp]
        exact dfaRun_false_of_prefix_dead rangeStep rangeAccept .s _ .w '~' rest2
          hwsmany rfl
  · -- (iii) suffix on the first token
    obtain ⟨cr, hcrmem, hcr⟩ := hrest
    refine validateVersion_eq_invalid_of _ ⟨cr, by simp [hcrmem], hcr⟩ ?_ ?_
    · exact hasDevDash_rangeTok op1 a b c hop1 haNE haD _
    · refine dfaRun_false_of_prefix_dead rangeStep rangeAccept .s _ s1 suf rest hs1 ?_
      rcases hs1or with rfl | rfl | rfl <;> rcases hsuf with rfl | rfl <;> decide
  · -- (iv) suffix on the second token
    refine validateVersion_eq_invalid_of _ ⟨w0, by simp, hw0⟩ ?_ ?_
    · have hsh : ((rangeTok op1 a b c ++ (w0 :: wrest)) ++ rangeTok op2 a2 b2 c2) ++
          suf :: rest2 =
          rangeTok op1 a b c ++
            ((w0 :: wrest) ++ (rangeTok op2 a2 b2 c2 ++ suf :: rest2)) := by
        simp [List.append_assoc]
      show hasDevDash (((rangeTok op1 a b c ++ (w0 :: wrest)) ++
        rangeTok op2 a2 b2 c2) ++ suf :: rest2) = false
      rw [hsh]
      exact hasDevDash_rangeTok op1 a b c hop1 haNE haD _
    · have hx : dfaMany rangeStep .s
          ((rangeTok op1 a b c ++ (w0 :: wrest)) ++ rangeTok op2 a2 b2 c2) =
          some s2 := by
        rw [dfaMany_append, hwsmany]
        show dfaMany rangeStep .w (rangeTok op2 a2 b2 c2) = some s2
        exact hs2
      refine dfaRun_false_of_prefix_dead rangeStep rangeAccept .s _ s2 suf rest2 hx ?_
      rcases hs2or with rfl | rfl | rfl <;> rcases hsuf with rfl | rfl <;> decide

/-- Witness for the amended C2, one concrete string per rejection shape:
`"<=1.0 2.0"` (two-character operator, first token), `"1.0 ~2.0"` (tilde
on the second token), `"1.0-1.0 2.0"` (prerelease suffix on the first
token), `"1.0 2.0+2.0"` (build suffix on the second token). -/
theorem validateVersion_range_rejects_badTokens_witness :
    Validation.ValidateVersion "<=1.0 2.0" =
      some (.invalidVersionFormat "<=1.0 2.0") ∧
    Validation.ValidateVersion "1.0 ~2.0" =
      some (.invalidVersionFormat "1.0 ~2.0") ∧
    Validation.ValidateVersion "1.0-1.0 2.0" =
      some (.invalidVersionFormat "1.0-1.0 2.0") ∧
    Validation.ValidateVersion "1.0 2.0+2.0" =
      some (.invalidVersionFormat "1.0 2.0+2.0") := by
  have h1 := validateVersion_range_rejects_badTokens "<=" (by decide)
    none ['1'] (some ['0']) none
    (by intro o ho; cases ho) (by decide) (by decide)
    (by intro l hl; cases hl; exact ⟨by decide, by decide⟩)
    (by intro l hl; cases hl)
    none ['2'] (some ['0']) none
    (by intro o ho; cases ho) (by decide) (by decide)
    (by intro l hl; cases hl; exact ⟨by decide, by decide⟩)
    (by intro l hl; cases hl)
    [' '] (by decide) (by decide)
    '-' (Or.inl rfl)
    "1.0 2.0".data (by decide)
    "2.0".data
  have h2 := validateVersion_range_rejects_badTokens "~" (by decide)
    none ['1'] (some ['0']) none
    (by intro o ho; cases ho) (by decide) (by decide)
    (by intro l hl; cases hl; exact ⟨by decide, by decide⟩)
    (by intro l hl; cases hl)
    none ['2'] (some ['0']) none
    (by intro o ho; cases ho) (by decide) (by decide)
    (by intro l hl; cases hl; exact ⟨by decide, by decide⟩)
    (by intro l hl; cases hl)
    [' '] (by decide) (by decide)
    '+' (Or.inr rfl)
    "1.0 2.0".data (by decide)
    "2.0".data
  exact ⟨h1.1, h2.2.1, h1.2.2.1, h2.2.2.2⟩

end ComposerSpec
